import Mathlib

/-!
Shallow embedding of the write-path substrate of the storage engine:
the key-encoding utilities of src/yb/docdb/doc_kv_util.h and the
operation lifecycle object of src/yb/tablet/operations/operation.cc.

Byte sequences are modelled as `List Nat`, each byte below 256.
-/

namespace YB

/-- Byte-lexicographic (memcmp-style) strict comparison of byte sequences:
a shorter sequence that is an initial segment of a longer one compares less. -/
def lexLtBytes : List Nat → List Nat → Bool
  | [], [] => false
  | [], _ :: _ => true
  | _ :: _, [] => false
  | a :: as, b :: bs =>
    if a < b then true
    else if b < a then false
    else lexLtBytes as bs

/-- Modelled from the spec: the body of BigEndian::Store16/32/64
(yb/gutil/endian.h) is not under src/; per the spec a fixed-width unsigned
integer is serialized as `n` bytes in big-endian byte order (most
significant byte first). -/
def BigEndianStore : Nat → Nat → List Nat
  | 0, _ => []
  | n + 1, v => BigEndianStore n (v / 256) ++ [v % 256]

/-- The numeric value of a byte sequence read as a big-endian integer. -/
def bigEndianValue (l : List Nat) : Nat :=
  l.foldl (fun acc b => acc * 256 + b) 0

/-- src/yb/docdb/doc_kv_util.h `AppendUInt16ToKey`: stores `val` into a
2-byte big-endian buffer and appends that buffer to `dest`. -/
def AppendUInt16ToKey (val : Nat) (dest : List Nat) : List Nat :=
  dest ++ BigEndianStore 2 val

/-- src/yb/docdb/doc_kv_util.h `AppendUInt32ToKey`: stores `val` into a
4-byte big-endian buffer and appends that buffer to `dest`. -/
def AppendUInt32ToKey (val : Nat) (dest : List Nat) : List Nat :=
  dest ++ BigEndianStore 4 val

/-- src/yb/docdb/doc_kv_util.h `AppendUInt64ToKey`: stores `val` into an
8-byte big-endian buffer and appends that buffer to `dest`. -/
def AppendUInt64ToKey (val : Nat) (dest : List Nat) : List Nat :=
  dest ++ BigEndianStore 8 val

/-- Zero-escaping of one string: every 0x00 byte becomes the pair 0x00 0x01,
other bytes are copied verbatim. -/
def zeroEncode : List Nat → List Nat
  | [] => []
  | b :: rest => (if b = 0 then [0, 1] else [b]) ++ zeroEncode rest

/-- Modelled from the spec: the body of `AppendZeroEncodedStrToKey`
(doc_kv_util.cc is not under src/); per the header comment it encodes `s`
by replacing 0x00 with 0x00 0x01 and appends the result to `dest`. -/
def AppendZeroEncodedStrToKey (s dest : List Nat) : List Nat :=
  dest ++ zeroEncode s

/-- Modelled from the spec: the body of `TerminateZeroEncodedKeyStr`
(doc_kv_util.cc is not under src/); per the header comment it appends two
zero bytes to `dest`. -/
def TerminateZeroEncodedKeyStr (dest : List Nat) : List Nat :=
  dest ++ [0, 0]

/-- src/yb/docdb/doc_kv_util.h `ZeroEncodeAndAppendStrToKey`: escaped
append followed by the two-byte terminator. -/
def ZeroEncodeAndAppendStrToKey (s dest : List Nat) : List Nat :=
  TerminateZeroEncodedKeyStr (AppendZeroEncodedStrToKey s dest)

/-- Modelled from the spec: the body of `DecodeZeroEncodedStr`
(doc_kv_util.cc is not under src/); per the header comment it reverses the
zero-escaping, consuming a prefix of the input up to and including the
0x00 0x00 terminator. Returns the decoded bytes and the number of input
bytes consumed, or `none` on a missing terminator / invalid escape. -/
def DecodeZeroEncodedStr : List Nat → Option (List Nat × Nat)
  | [] => none
  | [0] => none
  | 0 :: 0 :: _ => some ([], 2)
  | 0 :: 1 :: rest =>
    (DecodeZeroEncodedStr rest).map fun p => (0 :: p.fst, p.snd + 2)
  | 0 :: _ :: _ => none
  | b :: rest =>
    (DecodeZeroEncodedStr rest).map fun p => (b :: p.fst, p.snd + 1)

/-- yb/common/doc_hybrid_time.h constant (not under src/): the fixed upper
bound on the encoded version-suffix size, per the spec "bounded by a fixed
maximum". -/
def kMaxBytesPerEncodedHybridTime : Nat := 16

/-- src/yb/docdb/doc_kv_util.h `kMaxWordsPerEncodedHybridTimeWithValueType`
with 8-byte machine words. -/
def kMaxWordsPerEncodedHybridTimeWithValueType : Nat :=
  ((kMaxBytesPerEncodedHybridTime + 1) + 8 - 1) / 8

/-- Modelled from the spec: the body of `InvertEncodedDocHT`
(doc_kv_util.cc is not under src/); per the spec it writes the bitwise
complement of every byte of the input into the caller-supplied scratch
buffer and returns a view of it. On bytes below 256 the complement of `b`
is `255 - b`. -/
def InvertEncodedDocHT (input : List Nat) : List Nat :=
  input.map fun b => 255 - b

/-- Modelled from the spec: a valid version suffix is a nonempty byte string
of length at most `kMaxBytesPerEncodedHybridTime` whose final byte's
low-order bits record the encoded length minus one. -/
def isValidSuffix (s : List Nat) : Bool :=
  !s.isEmpty &&
    decide (s.length ≤ kMaxBytesPerEncodedHybridTime) &&
    s.all (fun b => decide (b < 256)) &&
    (s.getLast! % 16 == s.length - 1)

/-! ## Operation lifecycle (src/yb/tablet/operations/operation.cc)

The stateful C++ class is embedded as explicit state passing: each method
is a pure function from an `Operation` state to an outcome carrying the
new state and the trace of collaborator interactions (MVCC notifications,
pending-tracking removal, resource release, completion-callback delivery,
diagnostics). Kind-specific virtual hooks (`DoReplicated`, `DoAborted`)
are passed in as function parameters; `use_mvcc()` is a per-kind constant
held in the state. -/

/-- consensus OpId: (term, index) locating an entry in the replicated log. -/
structure OpId where
  term : Int
  index : Int
deriving DecidableEq

/-- The owning execution context (tablet), reduced to the collaborator
facets the operation code consumes: the hybrid time the MVCC manager's
`AddLeaderPending` returns, the clock's `Now()`, and the monotonic
counter value. Hybrid times are modelled by their `ToUint64` value. -/
structure Tablet where
  mvccLeaderHT : Nat
  clockNow : Nat
  monotonicCounter : Int
deriving DecidableEq

/-- The fields of the round's outgoing replication message that
`AddedToLeader` writes (consensus::LWReplicateMsg). -/
structure ReplicateMsg where
  id : Option OpId
  committed_op_id : Option OpId
  hybrid_time : Option Nat
  monotonic_counter : Option Int
deriving DecidableEq

/-- The consensus-round abstraction: an id and the outgoing message. -/
structure ConsensusRound where
  id : OpId
  replicate_msg : ReplicateMsg
deriving DecidableEq

/-- Statuses flowing through the operation code. -/
inductive OpStatus where
  | ok
  | illegalState (msg : String)
  | other (code : Nat) (msg : String)
deriving DecidableEq

/-- Observable interactions of an operation with its collaborators. -/
inductive Event where
  | mvccAddLeaderPending (op_id : OpId)
  | mvccAddFollowerPending (ht : Nat) (op_id : OpId)
  | mvccReplicated (ht : Nat) (op_id : OpId)
  | mvccAborted (ht : Nat) (op_id : OpId)
  | removedFromPending
  | release
  | callback (st : OpStatus)
  | logDFatal
  | dcheckFailed
  | addedAsPending
  | updateRequestFromConsensusRound
deriving DecidableEq

/-- The mutable state of one Operation. `hybrid_time = none` models an
invalid (unset) HybridTime; `tablet_w = none` models a weak tablet
reference whose target has been destroyed; `complete` is the atomic
completion flag; `has_callback` records whether a completion callback was
registered. -/
structure Operation where
  use_mvcc : Bool
  complete : Bool
  has_callback : Bool
  hybrid_time : Option Nat
  op_id : OpId
  consensus_round : Option ConsensusRound
  tablet_w : Option Tablet
deriving DecidableEq

/-- Result of running one operation method: the new state plus emitted
events, an early return with an error status, or process termination
(`LOG(FATAL)` / dereference of a torn-down collaborator). -/
inductive Outcome where
  | ok (s : Operation) (events : List Event)
  | err (e : OpStatus) (s : Operation) (events : List Event)
  | fatal
deriving DecidableEq

/-- operation.cc `Operation::CompleteWithStatus`: compare-and-swap on the
completion flag; on failure log a DFATAL diagnostic and return without
touching the callback; on success invoke the registered callback. -/
def Operation.CompleteWithStatus (s : Operation) (status : OpStatus) :
    Operation × List Event :=
  if s.complete then (s, [Event.logDFatal])
  else ({ s with complete := true },
        if s.has_callback then [Event.callback status] else [])

/-- operation.cc `Operation::set_hybrid_time`: under the mutex, DCHECK that
the hybrid time is not yet valid, then assign it. The DCHECK is modelled
as a `dcheckFailed` event when its condition is violated (a release build
continues past it). -/
def Operation.set_hybrid_time (s : Operation) (ht : Nat) :
    Operation × List Event :=
  ({ s with hybrid_time := some ht },
   if s.hybrid_time.isSome then [Event.dcheckFailed] else [])

/-- operation.cc `Operation::set_consensus_round`: under the mutex store
the round and mirror its id into the atomic op-id field, then invoke the
kind-specific `UpdateRequestFromConsensusRound` hook. -/
def Operation.set_consensus_round (s : Operation) (r : ConsensusRound) :
    Operation × List Event :=
  ({ s with consensus_round := some r, op_id := r.id },
   [Event.updateRequestFromConsensusRound])

/-- operation.cc `Operation::AddedToLeader`: obtain a hybrid time from the
MVCC manager (`AddLeaderPending`) or, for kinds not using MVCC, from the
clock; under the mutex assign `hybrid_time_` (directly, with no DCHECK)
and `op_id_`, and stamp the round's outgoing message with id, committed
id, hybrid time and the tablet's monotonic counter; finally run the
kind-specific `AddedAsPending` hook. Dereferencing a destroyed tablet or
an unbound round is fatal. -/
def Operation.AddedToLeader (s : Operation) (op_id committed_op_id : OpId) :
    Outcome :=
  match s.tablet_w with
  | none => Outcome.fatal
  | some t =>
    let ht : Nat := if s.use_mvcc then t.mvccLeaderHT else t.clockNow
    let preEvents : List Event :=
      if s.use_mvcc then [Event.mvccAddLeaderPending op_id] else []
    match s.consensus_round with
    | none => Outcome.fatal
    | some r =>
      Outcome.ok
        { s with
            hybrid_time := some ht,
            op_id := op_id,
            consensus_round := some
              { r with replicate_msg :=
                  { id := some op_id,
                    committed_op_id := some committed_op_id,
                    hybrid_time := some ht,
                    monotonic_counter := some t.monotonicCounter } } }
        (preEvents ++ [Event.addedAsPending])

/-- operation.cc `Operation::AddedToFollower`: for MVCC-using kinds,
register the already-present hybrid time and op id with the MVCC manager
as follower-pending; then run the `AddedAsPending` hook. The hybrid-time
accessor requires an assigned timestamp. -/
def Operation.AddedToFollower (s : Operation) : Outcome :=
  if s.use_mvcc then
    match s.tablet_w, s.hybrid_time with
    | some _, some ht =>
      Outcome.ok s [Event.mvccAddFollowerPending ht s.op_id,
                    Event.addedAsPending]
    | none, _ => Outcome.fatal
    | some _, none => Outcome.fatal
  else Outcome.ok s [Event.addedAsPending]

/-- operation.cc `Operation::Aborted(bool was_pending)`: for MVCC-using
kinds, if a hybrid time was ever assigned, notify the MVCC manager that
it is aborted (no notification when the timestamp was never set); then,
if the record was pending, remove it from pending tracking. -/
def Operation.AbortedHelper (s : Operation) (was_pending : Bool) : Outcome :=
  let pendEvents : List Event :=
    if was_pending then [Event.removedFromPending] else []
  if s.use_mvcc then
    match s.hybrid_time with
    | some ht =>
      match s.tablet_w with
      | none => Outcome.fatal
      | some _ => Outcome.ok s ([Event.mvccAborted ht s.op_id] ++ pendEvents)
    | none => Outcome.ok s pendEvents
  else Outcome.ok s pendEvents

/-- operation.cc `Operation::Replicated(WasPending was_pending)`: for
MVCC-using kinds notify the MVCC manager that the hybrid time is
replicated (visible); then, if pending, remove from pending tracking. -/
def Operation.ReplicatedHelper (s : Operation) (was_pending : Bool) : Outcome :=
  let pendEvents : List Event :=
    if was_pending then [Event.removedFromPending] else []
  if s.use_mvcc then
    match s.tablet_w, s.hybrid_time with
    | some _, some ht =>
      Outcome.ok s ([Event.mvccReplicated ht s.op_id] ++ pendEvents)
    | none, _ => Outcome.fatal
    | some _, none => Outcome.fatal
  else Outcome.ok s pendEvents

/-- operation.cc `Operation::Replicated(int64_t leader_term, WasPending)`:
run the kind-specific `DoReplicated` apply hook (passed as `doReplicated`);
on error return that error immediately (RETURN_NOT_OK) with no further
effect; on success notify MVCC / remove from pending, release resources,
and deliver the completion status. -/
def Operation.Replicated (s : Operation)
    (doReplicated : Int → Except OpStatus OpStatus)
    (leader_term : Int) (was_pending : Bool) : Outcome :=
  match doReplicated leader_term with
  | Except.error e => Outcome.err e s []
  | Except.ok complete_status =>
    match s.ReplicatedHelper was_pending with
    | Outcome.ok s1 events1 =>
      let r := s1.CompleteWithStatus complete_status
      Outcome.ok r.fst (events1 ++ [Event.release] ++ r.snd)
    | o => o

/-- operation.cc `Operation::Aborted(const Status& status, bool
was_pending)`: notify MVCC / remove from pending via
`Aborted(was_pending)`, release resources, and deliver the
kind-transformed status (`DoAborted`, passed as `doAborted`) to the
completion callback. -/
def Operation.Aborted (s : Operation) (doAborted : OpStatus → OpStatus)
    (status : OpStatus) (was_pending : Bool) : Outcome :=
  match s.AbortedHelper was_pending with
  | Outcome.ok s1 events1 =>
    let r := s1.CompleteWithStatus (doAborted status)
    Outcome.ok r.fst (events1 ++ [Event.release] ++ r.snd)
  | o => o

/-- Result of resolving the tablet through the hot accessor: a live tablet
or process termination. -/
inductive TabletResult where
  | ok (t : Tablet)
  | fatal
deriving DecidableEq

/-- operation.cc `Operation::tablet`: lock the weak reference;
`LOG(FATAL)` (process termination) if the tablet has been destroyed. -/
def Operation.tablet (s : Operation) : TabletResult :=
  match s.tablet_w with
  | some t => TabletResult.ok t
  | none => TabletResult.fatal

/-- operation.cc `Operation::tablet_safe`: lock the weak reference; return
an IllegalState error if the tablet has been destroyed. -/
def Operation.tablet_safe (s : Operation) : Except OpStatus Tablet :=
  match s.tablet_w with
  | some t => Except.ok t
  | none => Except.error (OpStatus.illegalState
      "Tablet referenced by an operation has already been destroyed")

/-! ## Helper lemmas -/

theorem lexLtBytes_append_same (xs as bs : List Nat) :
    lexLtBytes (xs ++ as) (xs ++ bs) = lexLtBytes as bs := by
  induction xs with
  | nil => rfl
  | cons x xs ih => simp [lexLtBytes, ih]

theorem lexLtBytes_append_of_lt (xs ys as bs : List Nat)
    (hlen : xs.length = ys.length) (h : lexLtBytes xs ys = true) :
    lexLtBytes (xs ++ as) (ys ++ bs) = true := by
  induction xs generalizing ys with
  | nil =>
    cases ys with
    | nil => simp [lexLtBytes] at h
    | cons y ys => simp at hlen
  | cons x xs ih =>
    cases ys with
    | nil => simp at hlen
    | cons y ys =>
      simp only [List.cons_append, lexLtBytes] at h ⊢
      by_cases hxy : x < y
      · simp [hxy]
      · simp only [if_neg hxy] at h ⊢
        by_cases hyx : y < x
        · simp [hyx] at h
        · simp only [if_neg hyx] at h ⊢
          exact ih ys (by simpa using hlen) h

theorem BigEndianStore_length (n v : Nat) :
    (BigEndianStore n v).length = n := by
  induction n generalizing v with
  | zero => rfl
  | succ n ih => simp [BigEndianStore, ih]

theorem bigEndianValue_append (l : List Nat) (x : Nat) :
    bigEndianValue (l ++ [x]) = bigEndianValue l * 256 + x := by
  simp [bigEndianValue, List.foldl_append]

theorem bigEndianValue_BigEndianStore (n v : Nat) :
    bigEndianValue (BigEndianStore n v) = v % 256 ^ n := by
  induction n generalizing v with
  | zero => simp [BigEndianStore, bigEndianValue, Nat.mod_one]
  | succ n ih =>
    rw [BigEndianStore, bigEndianValue_append, ih, pow_succ]
    have h : v % (256 ^ n * 256) = v % 256 + 256 * (v / 256 % 256 ^ n) := by
      rw [mul_comm, Nat.mod_mul]
    rw [h]; ring

theorem BigEndianStore_mono (n a b : Nat) (hab : a < b) (hb : b < 256 ^ n) :
    lexLtBytes (BigEndianStore n a) (BigEndianStore n b) = true := by
  induction n generalizing a b with
  | zero => simp at hb; omega
  | succ n ih =>
    simp only [BigEndianStore]
    have hdle : a / 256 ≤ b / 256 := Nat.div_le_div_right (Nat.le_of_lt hab)
    rcases Nat.lt_or_ge (a / 256) (b / 256) with hdlt | hdge
    · have hbdiv : b / 256 < 256 ^ n := by
        rw [pow_succ, mul_comm] at hb
        exact Nat.div_lt_of_lt_mul hb
      exact lexLtBytes_append_of_lt _ _ _ _
        (by simp [BigEndianStore_length]) (ih _ _ hdlt hbdiv)
    · have hdeq : a / 256 = b / 256 := Nat.le_antisymm hdle hdge
      rw [hdeq, lexLtBytes_append_same]
      have hmod : a % 256 < b % 256 := by omega
      simp [lexLtBytes, hmod]

theorem decode_zeroEncode (s : List Nat) :
    DecodeZeroEncodedStr (zeroEncode s ++ [0, 0]) =
      some (s, (zeroEncode s).length + 2) := by
  induction s with
  | nil => rfl
  | cons b rest ih =>
    by_cases hb : b = 0
    · subst hb
      simp [zeroEncode, DecodeZeroEncodedStr, ih]
    · obtain ⟨m, rfl⟩ : ∃ m, b = m + 1 := ⟨b - 1, by omega⟩
      simp [zeroEncode, DecodeZeroEncodedStr, ih]

theorem InvertEncodedDocHT_involutive (l : List Nat)
    (hb : ∀ b ∈ l, b < 256) :
    InvertEncodedDocHT (InvertEncodedDocHT l) = l := by
  induction l with
  | nil => rfl
  | cons x xs ih =>
    have hx : x < 256 := hb x (List.mem_cons_self x xs)
    have hxs : InvertEncodedDocHT (InvertEncodedDocHT xs) = xs :=
      ih fun b hm => hb b (List.mem_cons_of_mem x hm)
    simp only [InvertEncodedDocHT, List.map_cons] at hxs ⊢
    rw [show 255 - (255 - x) = x by omega, hxs]

theorem InvertEncodedDocHT_antitone :
    ∀ (h1 h2 : List Nat), (∀ b ∈ h1, b < 256) → (∀ b ∈ h2, b < 256) →
      h1.length = h2.length → lexLtBytes h1 h2 = true →
      lexLtBytes (InvertEncodedDocHT h2) (InvertEncodedDocHT h1) = true
  | [], [], _, _, _, hlt => by simp [lexLtBytes] at hlt
  | [], _ :: _, _, _, hlen, _ => by simp at hlen
  | _ :: _, [], _, _, hlen, _ => by simp at hlen
  | x :: xs, y :: ys, hb1, hb2, hlen, hlt => by
    have hx : x < 256 := hb1 x (List.mem_cons_self x xs)
    have hy : y < 256 := hb2 y (List.mem_cons_self y ys)
    simp only [lexLtBytes] at hlt
    simp only [InvertEncodedDocHT, List.map_cons, lexLtBytes]
    by_cases hxy : x < y
    · have hinv : 255 - y < 255 - x := by omega
      simp [hinv]
    · simp only [if_neg hxy] at hlt
      by_cases hyx : y < x
      · simp [hyx] at hlt
      · simp only [if_neg hyx] at hlt
        have hxyeq : x = y := by omega
        subst hxyeq
        have hirr : ¬(255 - x < 255 - x) := by omega
        simp only [if_neg hirr]
        exact InvertEncodedDocHT_antitone xs ys
          (fun b hm => hb1 b (List.mem_cons_of_mem x hm))
          (fun b hm => hb2 b (List.mem_cons_of_mem x hm))
          (by simpa using hlen) hlt

/-! ## Claim theorems: key codec -/

/-- C6: counterexample. The claim asserts that for every pair of valid
version suffixes with `h1 < h2` byte-lexicographically, the inverted
suffixes satisfy `Invert(h1) > Invert(h2)`. The suffixes `[0x00]` and
`[0x00, 0x01]` are both valid (final byte's low bits record length − 1),
`[0x00] < [0x00, 0x01]`, yet byte complementation preserves the
proper-prefix relation, so the inverted suffixes compare in the same
order, not the reversed one. -/
theorem invert_order_counterexample :
    isValidSuffix [0] = true ∧ isValidSuffix [0, 1] = true ∧
    lexLtBytes [0] [0, 1] = true ∧
    lexLtBytes (InvertEncodedDocHT [0, 1]) (InvertEncodedDocHT [0]) = false ∧
    lexLtBytes (InvertEncodedDocHT [0]) (InvertEncodedDocHT [0, 1]) = true := by
  decide

/-- C6 (amended): inverting twice reproduces the original bytes; for
suffixes of equal length (more generally, whenever neither is a proper
prefix of the other), `h1 < h2` implies `Invert(h1) > Invert(h2)`; the
inverted suffix has the same length as the input and fits in the
fixed-size word-aligned scratch buffer. -/
theorem invert_involutive_antitone (h1 h2 : List Nat)
    (hb1 : ∀ b ∈ h1, b < 256) (hb2 : ∀ b ∈ h2, b < 256)
    (hlen : h1.length = h2.length) (hlt : lexLtBytes h1 h2 = true) :
    InvertEncodedDocHT (InvertEncodedDocHT h1) = h1 ∧
    lexLtBytes (InvertEncodedDocHT h2) (InvertEncodedDocHT h1) = true ∧
    (InvertEncodedDocHT h1).length = h1.length ∧
    (h1.length ≤ kMaxBytesPerEncodedHybridTime + 1 →
      (InvertEncodedDocHT h1).length ≤
        8 * kMaxWordsPerEncodedHybridTimeWithValueType) := by
  refine ⟨InvertEncodedDocHT_involutive h1 hb1,
    InvertEncodedDocHT_antitone h1 h2 hb1 hb2 hlen hlt,
    by simp [InvertEncodedDocHT],
    fun hsz => ?_⟩
  simp only [InvertEncodedDocHT, List.length_map]
  simp [kMaxBytesPerEncodedHybridTime,
    kMaxWordsPerEncodedHybridTimeWithValueType] at hsz ⊢
  omega

/-- C6 witness: the amended theorem applied at the equal-length valid
suffixes `[0x10]` and `[0x11]`. -/
theorem invert_involutive_antitone_witness :
    lexLtBytes [16] [17] = true ∧
    InvertEncodedDocHT (InvertEncodedDocHT [16]) = [16] ∧
    lexLtBytes (InvertEncodedDocHT [17]) (InvertEncodedDocHT [16]) = true :=
  ⟨by decide,
   (invert_involutive_antitone [16] [17] (by decide) (by decide) (by decide)
      (by decide)).1,
   (invert_involutive_antitone [16] [17] (by decide) (by decide) (by decide)
      (by decide)).2.1⟩

/-- C7: decoding the byte sequence produced by escaped append followed by
the two-byte terminator yields the original string with the entire input
consumed; concretely, encoding `a\x00b` yields `a\x00\x01b\x00\x00` and
decoding that sequence yields `a\x00b` consuming all six bytes. -/
theorem ZeroEncode_Decode_roundtrip :
    (∀ s : List Nat,
      DecodeZeroEncodedStr (ZeroEncodeAndAppendStrToKey s []) =
        some (s, (ZeroEncodeAndAppendStrToKey s []).length)) ∧
    ZeroEncodeAndAppendStrToKey [97, 0, 98] [] = [97, 0, 1, 98, 0, 0] ∧
    DecodeZeroEncodedStr [97, 0, 1, 98, 0, 0] = some ([97, 0, 98], 6) := by
  refine ⟨fun s => ?_, by decide, by decide⟩
  have h := decode_zeroEncode s
  simp only [ZeroEncodeAndAppendStrToKey, AppendZeroEncodedStrToKey,
    TerminateZeroEncodedKeyStr, List.nil_append]
  rw [h]
  simp

/-- C9: each AppendUIntNToKey appends exactly N/8 bytes whose big-endian
value is the stored integer (so byte order is big-endian), leaves the
existing destination prefix unchanged, and for values `a < b` of the same
width the appended byte sequences compare `<` byte-lexicographically. -/
theorem AppendBigEndian_spec (a b v : Nat) (dest : List Nat) :
    (AppendUInt16ToKey v dest = dest ++ AppendUInt16ToKey v [] ∧
     (AppendUInt16ToKey v []).length = 2 ∧
     bigEndianValue (AppendUInt16ToKey v []) = v % 2 ^ 16 ∧
     (a < b → b < 2 ^ 16 →
       lexLtBytes (AppendUInt16ToKey a []) (AppendUInt16ToKey b []) = true)) ∧
    (AppendUInt32ToKey v dest = dest ++ AppendUInt32ToKey v [] ∧
     (AppendUInt32ToKey v []).length = 4 ∧
     bigEndianValue (AppendUInt32ToKey v []) = v % 2 ^ 32 ∧
     (a < b → b < 2 ^ 32 →
       lexLtBytes (AppendUInt32ToKey a []) (AppendUInt32ToKey b []) = true)) ∧
    (AppendUInt64ToKey v dest = dest ++ AppendUInt64ToKey v [] ∧
     (AppendUInt64ToKey v []).length = 8 ∧
     bigEndianValue (AppendUInt64ToKey v []) = v % 2 ^ 64 ∧
     (a < b → b < 2 ^ 64 →
       lexLtBytes (AppendUInt64ToKey a []) (AppendUInt64ToKey b []) = true)) := by
  refine ⟨⟨by simp [AppendUInt16ToKey],
            by simp [AppendUInt16ToKey, BigEndianStore_length],
            ?_, fun hab hb => ?_⟩,
          ⟨by simp [AppendUInt32ToKey],
            by simp [AppendUInt32ToKey, BigEndianStore_length],
            ?_, fun hab hb => ?_⟩,
          ⟨by simp [AppendUInt64ToKey],
            by simp [AppendUInt64ToKey, BigEndianStore_length],
            ?_, fun hab hb => ?_⟩⟩
  · have h := bigEndianValue_BigEndianStore 2 v
    simpa [AppendUInt16ToKey] using h.trans (by norm_num)
  · have hb2 : b < 256 ^ 2 := by norm_num at hb ⊢; exact hb
    simpa [AppendUInt16ToKey] using BigEndianStore_mono 2 a b hab hb2
  · have h := bigEndianValue_BigEndianStore 4 v
    simpa [AppendUInt32ToKey] using h.trans (by norm_num)
  · have hb2 : b < 256 ^ 4 := by norm_num at hb ⊢; exact hb
    simpa [AppendUInt32ToKey] using BigEndianStore_mono 4 a b hab hb2
  · have h := bigEndianValue_BigEndianStore 8 v
    simpa [AppendUInt64ToKey] using h.trans (by norm_num)
  · have hb2 : b < 256 ^ 8 := by norm_num at hb ⊢; exact hb
    simpa [AppendUInt64ToKey] using BigEndianStore_mono 8 a b hab hb2

/-- C9 witness: the monotonicity parts of the theorem applied at the
concrete values 1 < 2 for each width. -/
theorem AppendBigEndian_spec_witness :
    (1 < 2 ∧ 2 < 2 ^ 16 ∧ 2 < 2 ^ 32 ∧ 2 < 2 ^ 64) ∧
    lexLtBytes (AppendUInt16ToKey 1 []) (AppendUInt16ToKey 2 []) = true ∧
    lexLtBytes (AppendUInt32ToKey 1 []) (AppendUInt32ToKey 2 []) = true ∧
    lexLtBytes (AppendUInt64ToKey 1 []) (AppendUInt64ToKey 2 []) = true :=
  ⟨⟨by decide, by norm_num, by norm_num, by norm_num⟩,
   (AppendBigEndian_spec 1 2 5 [9]).1.2.2.2 (by decide) (by norm_num),
   (AppendBigEndian_spec 1 2 5 [9]).2.1.2.2.2 (by decide) (by norm_num),
   (AppendBigEndian_spec 1 2 5 [9]).2.2.2.2.2 (by decide) (by norm_num)⟩

/-! ## Claim theorems: operation lifecycle -/

/-- Recognizer for completion-callback delivery events. -/
def isCallbackEvent : Event → Bool
  | Event.callback _ => true
  | _ => false

/-- A tablet collaborator used for concrete instantiations. -/
def sampleTablet : Tablet := ⟨77, 55, 9⟩

/-- A consensus round with id (term 1, index 5) and a fresh message. -/
def sampleRound : ConsensusRound := ⟨⟨1, 5⟩, ⟨none, none, none, none⟩⟩

/-- A freshly constructed MVCC-using operation bound to `sampleRound`. -/
def sampleOperation : Operation :=
  ⟨true, false, true, none, ⟨0, 0⟩, some sampleRound, some sampleTablet⟩

/-- `sampleOperation` after a timestamp has already been assigned. -/
def presetOperation : Operation :=
  { sampleOperation with hybrid_time := some 5 }

/-- C1: invoking `CompleteWithStatus` twice on a record with a registered
callback delivers the callback exactly once, with the first status; the
second invocation finds the completion flag already true, emits only the
severe diagnostic, and leaves the state unchanged. -/
theorem CompleteWithStatus_exactly_once (s : Operation) (st1 st2 : OpStatus)
    (hc : s.complete = false) (hcb : s.has_callback = true) :
    (s.CompleteWithStatus st1).snd = [Event.callback st1] ∧
    (s.CompleteWithStatus st1).fst.complete = true ∧
    (s.CompleteWithStatus st1).fst.CompleteWithStatus st2 =
      ((s.CompleteWithStatus st1).fst, [Event.logDFatal]) ∧
    ((s.CompleteWithStatus st1).snd ++
        ((s.CompleteWithStatus st1).fst.CompleteWithStatus st2).snd).filter
      isCallbackEvent = [Event.callback st1] := by
  simp [Operation.CompleteWithStatus, hc, hcb, isCallbackEvent]

/-- C1 witness: the theorem applied to a fresh operation with two distinct
statuses. -/
theorem CompleteWithStatus_exactly_once_witness :
    sampleOperation.complete = false ∧ sampleOperation.has_callback = true ∧
    (sampleOperation.CompleteWithStatus OpStatus.ok).snd =
      [Event.callback OpStatus.ok] :=
  ⟨rfl, rfl,
   (CompleteWithStatus_exactly_once sampleOperation OpStatus.ok
      (OpStatus.other 3 "second") rfl rfl).1⟩

/-- C2: if the kind-specific apply hook fails, `Replicated` returns that
error with the state unchanged and an empty interaction trace: no MVCC
visibility notification, no pending-tracking removal, no resource
release, no completion-callback delivery. -/
theorem Replicated_propagates_apply_error (s : Operation)
    (doReplicated : Int → Except OpStatus OpStatus) (leader_term : Int)
    (was_pending : Bool) (e : OpStatus)
    (he : doReplicated leader_term = Except.error e) :
    s.Replicated doReplicated leader_term was_pending =
      Outcome.err e s [] := by
  simp [Operation.Replicated, he]

/-- An apply hook that always fails. -/
def failingApply : Int → Except OpStatus OpStatus :=
  fun _ => Except.error (OpStatus.other 5 "apply failed")

/-- C2 witness: the theorem applied to a concrete operation and a failing
apply hook. -/
theorem Replicated_propagates_apply_error_witness :
    failingApply 7 = Except.error (OpStatus.other 5 "apply failed") ∧
    sampleOperation.Replicated failingApply 7 true =
      Outcome.err (OpStatus.other 5 "apply failed") sampleOperation [] :=
  ⟨rfl, Replicated_propagates_apply_error sampleOperation failingApply 7 true
    (OpStatus.other 5 "apply failed") rfl⟩

/-- C3: counterexample. The claim asserts every assignment path of the
timestamp field is guarded by an assertion that the field is currently
unset, in particular the assignment performed by `AddedToLeader`. But
`AddedToLeader` writes `hybrid_time_` directly under the mutex with no
DCHECK: on a record whose timestamp is already 5 it silently overwrites
it with the MVCC-issued value 77 and its trace contains no assertion
failure. -/
theorem AddedToLeader_unguarded_assignment :
    presetOperation.hybrid_time = some 5 ∧
    presetOperation.AddedToLeader ⟨1, 5⟩ ⟨1, 4⟩ =
      Outcome.ok
        { presetOperation with
            hybrid_time := some 77,
            op_id := ⟨1, 5⟩,
            consensus_round := some ⟨⟨1, 5⟩,
              ⟨some ⟨1, 5⟩, some ⟨1, 4⟩, some 77, some 9⟩⟩ }
        [Event.mvccAddLeaderPending ⟨1, 5⟩, Event.addedAsPending] ∧
    Event.dcheckFailed ∉
      [Event.mvccAddLeaderPending (⟨1, 5⟩ : OpId), Event.addedAsPending] := by
  refine ⟨rfl, rfl, by decide⟩

/-- C3 (amended): the timestamp assignment performed by `set_hybrid_time`
is guarded by an assertion that the field is currently unset; the
assignment performed by `AddedToLeader` is not so guarded — it assigns
the freshly obtained hybrid time unconditionally and emits no assertion
diagnostic. -/
theorem set_hybrid_time_guarded_AddedToLeader_unguarded (s : Operation)
    (t : Tablet) (r : ConsensusRound) (ht1 : Nat) (o c : OpId)
    (htab : s.tablet_w = some t) (hr : s.consensus_round = some r) :
    ((s.set_hybrid_time ht1).snd =
      if s.hybrid_time.isSome then [Event.dcheckFailed] else []) ∧
    (s.set_hybrid_time ht1).fst.hybrid_time = some ht1 ∧
    (∀ s2 evs, s.AddedToLeader o c = Outcome.ok s2 evs →
      s2.hybrid_time =
        some (if s.use_mvcc then t.mvccLeaderHT else t.clockNow) ∧
      Event.dcheckFailed ∉ evs) := by
  refine ⟨rfl, rfl, fun s2 evs h => ?_⟩
  simp only [Operation.AddedToLeader, htab, hr] at h
  obtain ⟨hs2, hevs⟩ := Outcome.ok.inj h
  subst hs2
  subst hevs
  constructor
  · rfl
  · cases hm : s.use_mvcc <;> simp [hm]

/-- C3 amended witness: the theorem applied at a fresh operation (no
diagnostic, field set) and at one with an assigned timestamp (diagnostic
emitted). -/
theorem set_hybrid_time_guarded_witness :
    (sampleOperation.set_hybrid_time 42).snd = [] ∧
    (presetOperation.set_hybrid_time 42).snd = [Event.dcheckFailed] ∧
    (presetOperation.set_hybrid_time 42).fst.hybrid_time = some 42 :=
  ⟨by
    have h := (set_hybrid_time_guarded_AddedToLeader_unguarded
      sampleOperation sampleTablet sampleRound 42 ⟨1, 5⟩ ⟨1, 4⟩ rfl rfl).1
    simpa using h,
   by
    have h := (set_hybrid_time_guarded_AddedToLeader_unguarded
      presetOperation sampleTablet sampleRound 42 ⟨1, 5⟩ ⟨1, 4⟩ rfl rfl).1
    simpa using h,
   (set_hybrid_time_guarded_AddedToLeader_unguarded
      presetOperation sampleTablet sampleRound 42 ⟨1, 5⟩ ⟨1, 4⟩ rfl rfl).2.1⟩

/-- C4: for an MVCC-using operation bound to a round, `AddedToLeader`
with the round's id sets the record's op id to that id, sets its
timestamp to the value returned by the MVCC collaborator's
`AddLeaderPending` (registering the id as leader-pending), stamps the
round's outgoing message with the id, the committed-id bound, that
timestamp and the tablet's monotonic counter, and afterwards runs the
kind-specific added-as-pending hook. -/
theorem AddedToLeader_spec (s : Operation) (t : Tablet) (r : ConsensusRound)
    (op_id committed_op_id : OpId)
    (hm : s.use_mvcc = true) (htab : s.tablet_w = some t)
    (hr : s.consensus_round = some r) (hid : op_id = r.id) :
    s.AddedToLeader op_id committed_op_id =
      Outcome.ok
        { s with
            hybrid_time := some t.mvccLeaderHT,
            op_id := r.id,
            consensus_round := some
              { r with replicate_msg :=
                  { id := some r.id,
                    committed_op_id := some committed_op_id,
                    hybrid_time := some t.mvccLeaderHT,
                    monotonic_counter := some t.monotonicCounter } } }
        [Event.mvccAddLeaderPending r.id, Event.addedAsPending] := by
  subst hid
  simp [Operation.AddedToLeader, htab, hr, hm]

/-- C4 witness: the theorem applied at a round with id (term 1, index 5)
and a committed bound (1, 4). -/
theorem AddedToLeader_spec_witness :
    sampleOperation.use_mvcc = true ∧
    sampleOperation.AddedToLeader ⟨1, 5⟩ ⟨1, 4⟩ =
      Outcome.ok
        { sampleOperation with
            hybrid_time := some 77,
            op_id := ⟨1, 5⟩,
            consensus_round := some ⟨⟨1, 5⟩,
              ⟨some ⟨1, 5⟩, some ⟨1, 4⟩, some 77, some 9⟩⟩ }
        [Event.mvccAddLeaderPending ⟨1, 5⟩, Event.addedAsPending] :=
  ⟨rfl, AddedToLeader_spec sampleOperation sampleTablet sampleRound
    ⟨1, 5⟩ ⟨1, 4⟩ rfl rfl rfl rfl⟩

/-- C5: aborting an MVCC-using pending record with an assigned timestamp
sends exactly one `Aborted` notification carrying that timestamp and the
record's op id to the MVCC collaborator, removes the record from pending
tracking, releases resources, and delivers the kind-transformed status to
the completion callback exactly once; if the timestamp was never
assigned, no `Aborted` notification is sent. -/
theorem Aborted_spec (s : Operation) (t : Tablet) (ht : Nat)
    (doAborted : OpStatus → OpStatus) (status : OpStatus)
    (hm : s.use_mvcc = true) (htab : s.tablet_w = some t)
    (hc : s.complete = false) (hcb : s.has_callback = true) :
    (s.hybrid_time = some ht →
      s.Aborted doAborted status true =
        Outcome.ok { s with complete := true }
          [Event.mvccAborted ht s.op_id, Event.removedFromPending,
           Event.release, Event.callback (doAborted status)]) ∧
    (s.hybrid_time = none →
      s.Aborted doAborted status true =
        Outcome.ok { s with complete := true }
          [Event.removedFromPending, Event.release,
           Event.callback (doAborted status)]) := by
  constructor <;> intro hht <;>
    simp [Operation.Aborted, Operation.AbortedHelper,
      Operation.CompleteWithStatus, hm, htab, hc, hcb, hht]

/-- C5 witness: the theorem applied to a pending record whose timestamp is
5 with the identity kind transformation. -/
theorem Aborted_spec_witness :
    presetOperation.hybrid_time = some 5 ∧
    presetOperation.Aborted id OpStatus.ok true =
      Outcome.ok { presetOperation with complete := true }
        [Event.mvccAborted 5 ⟨0, 0⟩, Event.removedFromPending,
         Event.release, Event.callback OpStatus.ok] :=
  ⟨rfl, (Aborted_spec presetOperation sampleTablet 5 id OpStatus.ok
    rfl rfl rfl rfl).1 rfl⟩

/-- C8: resolving the owner after teardown terminates the process through
the hot accessor `tablet` and returns an IllegalState error through the
non-blocking accessor `tablet_safe`; when the owner is alive both return
the live owner. -/
theorem tablet_accessors_spec (s : Operation) (t : Tablet) :
    (s.tablet_w = none →
      s.tablet = TabletResult.fatal ∧
      s.tablet_safe = Except.error (OpStatus.illegalState
        "Tablet referenced by an operation has already been destroyed")) ∧
    (s.tablet_w = some t →
      s.tablet = TabletResult.ok t ∧ s.tablet_safe = Except.ok t) := by
  constructor <;> intro h <;>
    simp [Operation.tablet, Operation.tablet_safe, h]

/-- An operation whose owning tablet has been destroyed. -/
def deadOperation : Operation :=
  { sampleOperation with tablet_w := none }

/-- C8 witness: the theorem applied to an operation with a torn-down owner
and to one with a live owner. -/
theorem tablet_accessors_spec_witness :
    deadOperation.tablet = TabletResult.fatal ∧
    sampleOperation.tablet_safe = Except.ok sampleTablet :=
  ⟨((tablet_accessors_spec deadOperation sampleTablet).1 rfl).1,
   ((tablet_accessors_spec sampleOperation sampleTablet).2 rfl).2⟩

/-- C10: for a kind that does not use MVCC, `AddedToLeader` takes the
timestamp from the clock's `Now()` instead of `AddLeaderPending`, and
`AddedToFollower`, `Aborted` and `Replicated` perform no MVCC
registration, visibility or abort notification at all, while
pending-tracking removal, resource release and completion delivery are
unchanged. -/
theorem non_mvcc_behavior (s : Operation) (t : Tablet) (r : ConsensusRound)
    (op_id committed_op_id : OpId) (doAborted : OpStatus → OpStatus)
    (doReplicated : Int → Except OpStatus OpStatus)
    (status complete_status : OpStatus) (was_pending : Bool)
    (leader_term : Int)
    (hm : s.use_mvcc = false) (htab : s.tablet_w = some t)
    (hr : s.consensus_round = some r)
    (hc : s.complete = false) (hcb : s.has_callback = true) :
    s.AddedToLeader op_id committed_op_id =
      Outcome.ok
        { s with
            hybrid_time := some t.clockNow,
            op_id := op_id,
            consensus_round := some
              { r with replicate_msg :=
                  { id := some op_id,
                    committed_op_id := some committed_op_id,
                    hybrid_time := some t.clockNow,
                    monotonic_counter := some t.monotonicCounter } } }
        [Event.addedAsPending] ∧
    s.AddedToFollower = Outcome.ok s [Event.addedAsPending] ∧
    s.Aborted doAborted status was_pending =
      Outcome.ok { s with complete := true }
        ((if was_pending then [Event.removedFromPending] else []) ++
          [Event.release, Event.callback (doAborted status)]) ∧
    (doReplicated leader_term = Except.ok complete_status →
      s.Replicated doReplicated leader_term was_pending =
        Outcome.ok { s with complete := true }
          ((if was_pending then [Event.removedFromPending] else []) ++
            [Event.release, Event.callback complete_status])) := by
  refine ⟨?_, ?_, ?_, fun hok => ?_⟩
  · simp [Operation.AddedToLeader, htab, hr, hm]
  · simp [Operation.AddedToFollower, hm]
  · cases was_pending <;>
      simp [Operation.Aborted, Operation.AbortedHelper,
        Operation.CompleteWithStatus, hm, hc, hcb]
  · cases was_pending <;>
      simp [Operation.Replicated, Operation.ReplicatedHelper,
        Operation.CompleteWithStatus, hm, hc, hcb, hok]

/-- A non-MVCC operation otherwise identical to `sampleOperation`. -/
def nonMvccOperation : Operation :=
  { sampleOperation with use_mvcc := false }

/-- An apply hook that always succeeds with status OK. -/
def okApply : Int → Except OpStatus OpStatus :=
  fun _ => Except.ok OpStatus.ok

/-- C10 witness: the theorem applied to a non-MVCC operation: the follower
path and the replicate path emit no MVCC events. -/
theorem non_mvcc_behavior_witness :
    nonMvccOperation.use_mvcc = false ∧
    nonMvccOperation.AddedToFollower =
      Outcome.ok nonMvccOperation [Event.addedAsPending] ∧
    nonMvccOperation.Replicated okApply 3 true =
      Outcome.ok { nonMvccOperation with complete := true }
        [Event.removedFromPending, Event.release,
         Event.callback OpStatus.ok] :=
  ⟨rfl,
   (non_mvcc_behavior nonMvccOperation sampleTablet sampleRound ⟨1, 5⟩
      ⟨1, 4⟩ id okApply OpStatus.ok OpStatus.ok true 3
      rfl rfl rfl rfl rfl).2.1,
   by
    have h := (non_mvcc_behavior nonMvccOperation sampleTablet sampleRound
      ⟨1, 5⟩ ⟨1, 4⟩ id okApply OpStatus.ok OpStatus.ok true 3
      rfl rfl rfl rfl rfl).2.2.2 rfl
    simpa using h⟩

end YB
